import Mathlib

/-!
Verification development for the semantic-search indexing pipeline.

The definitions below are a shallow embedding of the TypeScript sources:
* `src/src/utils/tokenChunker.ts` (`splitIntoTokenChunks` and its helpers),
* `src/src/models/types.ts` (`IndexingConfig`, `DEFAULT_INDEXING_CONFIG`),
* `src/src/services/vectorDbService.ts` (metadata rows, `search`,
  `deleteWorkspaceIndex`, `getIndexedFile`, `upsertIndexedFile`, ...),
* `src/src/services/indexingService.ts` / `src/unnamed/part_004`
  (`IndexingService.indexFile`, `indexWorkspace`, `indexFiles`).

The tokenizer (js-tiktoken, `cl100k_base`) is an external collaborator; it is
modelled as an abstract per-line token counting function `tok : String → Nat`
(the length of `enc.encode(line)`).  Likewise the embedding provider and the
cosine-distance primitive of the vector index are abstract parameters.
-/

/-! ## Token chunker (`src/src/utils/tokenChunker.ts`) -/

/-- `TokenChunk` record produced by the chunker (tokenChunker.ts lines 17-23). -/
structure TokenChunk where
  content : String
  lineStart : Nat
  lineEnd : Nat
  tokenStart : Nat
  tokenEnd : Nat
deriving Repr, DecidableEq, Inhabited

/-- `IndexingConfig` (types.ts lines 116-122).  The numeric fields are JS
numbers supplied by configuration; we model them as integers so that
out-of-range values exercise the clamps. -/
structure IndexingConfig where
  chunkMaxTokens : Int
  chunkMaxLine : Int
  chunkOverlapTokens : Int
  excludePatterns : List String
  includePatterns : List String
deriving Repr, DecidableEq

/-- `DEFAULT_INDEXING_CONFIG` (types.ts lines 159-200). -/
def DEFAULT_INDEXING_CONFIG : IndexingConfig :=
  { chunkMaxTokens := 1024
    chunkMaxLine := 40
    chunkOverlapTokens := 128
    excludePatterns :=
      ["**/node_modules/**", "**/.git/**", "**/dist/**", "**/out/**",
       "**/*.min.js", "**/*.map", "**/package-lock.json", "**/yarn.lock",
       "**/.vscode/**", "**/bin/**", "**/obj/**"]
    includePatterns :=
      ["**/*.ts", "**/*.js", "**/*.tsx", "**/*.jsx", "**/*.py", "**/*.java",
       "**/*.cs", "**/*.go", "**/*.rs", "**/*.cpp", "**/*.c", "**/*.h",
       "**/*.hpp", "**/*.md", "**/*.json", "**/*.yaml", "**/*.yml",
       "**/*.xml", "**/*.html", "**/*.css", "**/*.scss", "**/*.less"] }

/-- JavaScript `content.split('\n')` on the character list of the string.
`''.split('\n')` is `['']` in JavaScript, so the result is never empty. -/
def splitLinesList : List Char → List (List Char)
  | [] => [[]]
  | c :: cs =>
    match splitLinesList cs with
    | [] => [[]]
    | l :: ls => if c = '\n' then [] :: l :: ls else (c :: l) :: ls

/-- JavaScript `content.split('\n')` (tokenChunker.ts line 31). -/
def splitLines (s : String) : List String :=
  (splitLinesList s.data).map fun l => String.mk l

/-- The cumulative array `tokenStarts[i]` of tokenChunker.ts lines 32-41:
the total number of tokens of the lines strictly before line index `i`. -/
def tokenStartAt (tok : String → Nat) (lines : List String) (i : Nat) : Nat :=
  ((lines.take i).map tok).sum

/-- The cumulative array `tokenEnds[i]` of tokenChunker.ts lines 32-41:
the total number of tokens of the lines up to and including line index `i`. -/
def tokenEndAt (tok : String → Nat) (lines : List String) (i : Nat) : Nat :=
  ((lines.take (i + 1)).map tok).sum

/-- `Math.min(Math.max(maxTokensRaw, 256), 2048)` (tokenChunker.ts line 56). -/
def clampMaxTokens (raw : Int) : Nat :=
  (min (max raw 256) 2048).toNat

/-- `Math.max(0, Math.min(overlapTokensRaw, maxTokens - 1))`
(tokenChunker.ts line 57). -/
def clampOverlapTokens (raw : Int) (maxTokens : Nat) : Nat :=
  (max 0 (min raw ((maxTokens : Int) - 1))).toNat

/-- The inner `while` loop of tokenChunker.ts lines 78-93: starting from
`endLineExclusive = e`, grow the window while the token count fits the
budget; on overflow back off one line unless the window is a single line.
Returns the value of `endLineExclusive` immediately after the loop. -/
def growEnd (tEnd : Nat → Nat) (maxT cts n s e : Nat) : Nat :=
  if h : e ≤ n then
    if tEnd (e - 1) - cts > maxT then
      if e > s + 1 then e - 1 else e
    else
      growEnd tEnd maxT cts n s (e + 1)
  else e
termination_by n + 1 - e

/-- The two guards of tokenChunker.ts lines 95-101 applied to the value of
`endLineExclusive` after the inner loop. -/
def clampEnd (n s e0 : Nat) : Nat :=
  let e1 := if e0 > n then n else e0
  if e1 ≤ s then min (s + 1) n else e1

/-- The final `endLineExclusive` for the window starting at line index `s`. -/
def chunkEnd (tok : String → Nat) (lines : List String) (maxT s : Nat) : Nat :=
  clampEnd lines.length s
    (growEnd (tokenEndAt tok lines) maxT (tokenStartAt tok lines s)
      lines.length s (s + 1))

/-- The scan of tokenChunker.ts lines 129-135: the first `i` in `[lo, hi)`
with `tokenStarts[i] ≥ desired`, defaulting to `hi - 1`. -/
def findOverlapStart (tS : Nat → Nat) (desired lo hi : Nat) : Nat :=
  if h : lo < hi then
    if tS lo ≥ desired then lo
    else findOverlapStart tS desired (lo + 1) hi
  else hi - 1
termination_by hi - lo

/-- The next `startLine` computed at the bottom of the main loop
(tokenChunker.ts lines 119-141). -/
def nextStart (tok : String → Nat) (lines : List String) (maxT overlap s : Nat) : Nat :=
  let e := chunkEnd tok lines maxT s
  if overlap = 0 then e
  else
    let cts := tokenStartAt tok lines s
    let tokEnd := tokenEndAt tok lines (e - 1)
    let desired := max cts (tokEnd - overlap)
    let scanned := findOverlapStart (tokenStartAt tok lines) desired (s + 1) e
    if scanned ≤ s then s + 1 else scanned

/-- The chunk pushed for the window starting at line index `s`
(tokenChunker.ts lines 103-113). -/
def mkChunk (tok : String → Nat) (lines : List String) (maxT s : Nat) : TokenChunk :=
  let e := chunkEnd tok lines maxT s
  { content := String.intercalate "\n" ((lines.drop s).take (e - s))
    lineStart := s + 1
    lineEnd := e
    tokenStart := tokenStartAt tok lines s
    tokenEnd := tokenEndAt tok lines (e - 1) }

/-- The main `while (startLine < lines.length)` loop of tokenChunker.ts
lines 74-142. -/
def chunkLoop (tok : String → Nat) (lines : List String) (maxT overlap s : Nat) :
    List TokenChunk :=
  if _hs : s < lines.length then
    if chunkEnd tok lines maxT s ≥ lines.length then
      [mkChunk tok lines maxT s]
    else
      mkChunk tok lines maxT s ::
        chunkLoop tok lines maxT overlap (nextStart tok lines maxT overlap s)
  else []
termination_by lines.length - s
decreasing_by
  have h1 : s < chunkEnd tok lines maxT s := by
    unfold chunkEnd clampEnd
    dsimp only
    split <;> split <;> omega
  have h2 : s < nextStart tok lines maxT overlap s := by
    unfold nextStart
    dsimp only
    split
    · exact h1
    · split
      · omega
      · omega
  omega

/-- `splitIntoTokenChunks` (tokenChunker.ts lines 25-145), parametrized by
the external tokenizer `tok` (per-line token count). -/
def splitIntoTokenChunks (tok : String → Nat) (content : String)
    (config : IndexingConfig) : List TokenChunk :=
  let lines := splitLines content
  let totalTokens := (lines.map tok).sum
  if lines.length = 0 then []
  else
    let maxTokens := clampMaxTokens config.chunkMaxTokens
    let overlapTokens := clampOverlapTokens config.chunkOverlapTokens maxTokens
    if totalTokens ≤ maxTokens then
      [{ content := content
         lineStart := 1
         lineEnd := lines.length
         tokenStart := 0
         tokenEnd := totalTokens }]
    else
      chunkLoop tok lines maxTokens overlapTokens 0

/-! ## Path helpers (`src/src/utils/fileUtils.ts`, `vectorDbService.ts`) -/

/-- `filePath.replace(/\\/g, '/')` (fileUtils.ts `normalizePath`, also used by
`extractFolderPath` / `extractFileName` in vectorDbService.ts). -/
def normalizePath (filePath : String) : String :=
  String.mk (filePath.data.map fun c => if c = '\\' then '/' else c)

/-- Generic split of a character list at every separator character, in the
style of JavaScript `String.split`: the result is never empty. -/
def splitCharsOn (p : Char → Bool) : List Char → List (List Char)
  | [] => [[]]
  | c :: cs =>
    match splitCharsOn p cs with
    | [] => [[]]
    | l :: ls => if p c then [] :: l :: ls else (c :: l) :: ls

/-- The characters strictly before the last `'/'`, or `none` if there is no
slash (models `normalized.lastIndexOf('/')` plus `substring(0, lastSlash)`). -/
def beforeLastSlash : List Char → Option (List Char)
  | [] => none
  | c :: cs =>
    match beforeLastSlash cs with
    | some r => some (c :: r)
    | none => if c = '/' then some [] else none

/-- The characters strictly after the last `'/'`, or `none` if there is no
slash (models `substring(lastSlash + 1)`). -/
def afterLastSlash : List Char → Option (List Char)
  | [] => none
  | c :: cs =>
    match afterLastSlash cs with
    | some r => some r
    | none => if c = '/' then some cs else none

/-- `VectorDbService.extractFolderPath`: the part of the path before the last
slash; empty when there is no slash or the last slash is at index 0. -/
def extractFolderPath (filePath : String) : String :=
  match beforeLastSlash (normalizePath filePath).data with
  | some r => if r.isEmpty then "" else String.mk r
  | none => ""

/-- `VectorDbService.extractFileName`: the part of the path after the last
slash, or the whole (normalized) path if there is no slash. -/
def extractFileName (filePath : String) : String :=
  match afterLastSlash (normalizePath filePath).data with
  | some r => String.mk r
  | none => normalizePath filePath

/-- `VectorDbService.extractFolderName` (same body as `extractFileName` in the
source). -/
def extractFolderName (folderPath : String) : String :=
  match afterLastSlash (normalizePath folderPath).data with
  | some r => String.mk r
  | none => normalizePath folderPath

/-- `filePath.replace(/\\/g, '/').split('/').pop() || filePath`
(IndexingService.indexFile in `src/unnamed/part_004`). -/
def fileNameOf (filePath : String) : String :=
  let parts := (splitCharsOn (fun c => c = '/') (normalizePath filePath).data).map
    fun l => String.mk l
  match parts.getLast? with
  | some last => if last = "" then filePath else last
  | none => filePath

/-- `workspacePath.split(/[/\\]/).pop() || workspacePath`
(VectorDbService.getOrCreateWorkspaceId). -/
def workspaceNameOf (workspacePath : String) : String :=
  let parts := (splitCharsOn (fun c => c = '/' || c = '\\') workspacePath.data).map
    fun l => String.mk l
  match parts.getLast? with
  | some last => if last = "" then workspacePath else last
  | none => workspacePath

/-- `generateChunkId` (fileUtils.ts lines 29-31). -/
def generateChunkId (fileId : String) (lineStart lineEnd : Nat) : String :=
  fileId ++ ":" ++ toString lineStart ++ "-" ++ toString lineEnd

/-! ## Metadata / vector store rows (`vectorDbService.ts` tables) -/

/-- A row of `workspaces_v1`. -/
structure WorkspaceRow where
  workspaceId : String
  workspacePath : String
  workspaceName : String
  status : String
  createdAt : Nat
deriving Repr, DecidableEq

/-- A row of `folders_v1`. -/
structure FolderRow where
  folderId : String
  workspaceId : String
  parentFolderId : Option String
  folderPath : String
  folderName : String
  createdAt : Nat
deriving Repr, DecidableEq

/-- A row of `indexed_files_v1`. -/
structure FileRow where
  fileId : String
  workspaceId : String
  folderId : String
  filePath : String
  fileName : String
  absolutePath : String
  fileSize : Option Nat
  lastIndexedAt : Nat
  md5Hash : String
deriving Repr, DecidableEq

/-- A row of `file_chunks_small_v1`.  The embedding vector of the external
embedding provider is modelled as a list of rationals. -/
structure ChunkRow where
  chunkId : String
  fileId : String
  filePath : String
  workspaceId : String
  workspacePath : String
  content : String
  lineStart : Nat
  linePosStart : Nat
  lineEnd : Nat
  linePosEnd : Nat
  chunkIndex : Nat
  embedding : List Rat
  createdAt : Nat
deriving Repr, DecidableEq

/-- The mutable state of the DuckDB database behind `VectorDbService`: one
list of rows per table, in insertion order (a `SELECT` without `ORDER BY`
is modelled as returning rows in that order). -/
structure DbState where
  workspaces : List WorkspaceRow
  folders : List FolderRow
  files : List FileRow
  chunks : List ChunkRow
deriving Repr, DecidableEq

/-- The `IndexedFile` interface (types.ts lines 31-43), the argument of
`upsertIndexedFile`. -/
structure IndexedFile where
  fileId : String
  workspaceId : String
  folderId : String
  filePath : String
  fileName : String
  absolutePath : String
  fileSize : Option Nat
  lastIndexedAt : Nat
  md5Hash : String
  workspacePath : Option String
deriving Repr, DecidableEq

/-- The `CodeChunkInput` interface of vectorDbService.ts (lines 17-29). -/
structure CodeChunkInput where
  chunkId : String
  fileId : String
  filePath : String
  workspaceId : String
  workspacePath : String
  content : String
  lineStart : Nat
  linePosStart : Nat
  lineEnd : Nat
  linePosEnd : Nat
  chunkIndex : Option Nat
deriving Repr, DecidableEq

/-- `SearchResult` (types.ts lines 105-111); the score is a rational. -/
structure SearchResult where
  filePath : String
  lineStart : Nat
  lineEnd : Nat
  content : String
  score : Rat
deriving Repr, DecidableEq

/-- External collaborators of the services: the cryptographic digests used
for identifiers and change detection, the chunker configuration baked into
the indexing service, the embedding provider, the cosine-distance primitive
of the vector index (`array_cosine_distance`), and the wall clock
(`Date.now()`). -/
structure Env where
  calculateMD5 : String → String
  generateFileId : String → String → String
  workspaceIdOf : String → String
  folderIdOf : String → String → String
  smartChunk : String → String → List TokenChunk
  embedDocument : String → String → List Rat
  embedQuery : String → Except String (List Rat)
  cosineDistance : List Rat → List Rat → Rat
  now : Nat

/-! ## VectorDbService operations -/

/-- `getWorkspaceByPath` (vectorDbService.ts lines 666-693):
`SELECT * FROM workspaces_v1 WHERE workspace_path = $1`, first row or null. -/
def getWorkspaceByPath (s : DbState) (workspacePath : String) : Option WorkspaceRow :=
  s.workspaces.find? fun w => w.workspacePath = workspacePath

/-- `getIndexedFile` (vectorDbService.ts lines 459-484):
`SELECT ... FROM indexed_files_v1 WHERE file_id = $1`, first row or null. -/
def getIndexedFile (s : DbState) (fileId : String) : Option FileRow :=
  s.files.find? fun f => f.fileId = fileId

/-- `deleteFileChunks` (vectorDbService.ts lines 272-276):
`DELETE FROM file_chunks_small_v1 WHERE file_id = ...`. -/
def deleteFileChunks (s : DbState) (fileId : String) : DbState :=
  { s with chunks := s.chunks.filter fun c => ¬ (c.fileId = fileId) }

/-- `getOrCreateWorkspaceId` (vectorDbService.ts lines 391-415).  Only the
`workspaces_v1` table is read or written. -/
def getOrCreateWorkspaceId (env : Env) (rows : List WorkspaceRow)
    (workspacePath : String) : String × List WorkspaceRow :=
  if workspacePath = "" then ("", rows)
  else
    match rows.find? (fun w => w.workspacePath = workspacePath) with
    | some w => (w.workspaceId, rows)
    | none =>
      let workspaceId := env.workspaceIdOf workspacePath
      let row : WorkspaceRow :=
        { workspaceId := workspaceId
          workspacePath := workspacePath
          workspaceName := workspaceNameOf workspacePath
          status := "active"
          createdAt := env.now }
      -- INSERT ... ON CONFLICT (workspace_id) DO NOTHING
      if rows.any (fun w => w.workspaceId = workspaceId) then (workspaceId, rows)
      else (workspaceId, rows ++ [row])

/-- `getOrCreateFolderId` (vectorDbService.ts lines 419-455).  Creates parent
folders recursively; only the `folders_v1` table is read or written.  The
recursive call in the source passes `folderPath` (whose own folder path is
the parent path), so the argument strictly shortens. -/
def getOrCreateFolderId (env : Env) (rows : List FolderRow)
    (workspaceId filePath : String) : String × List FolderRow :=
  let folderPath := extractFolderPath filePath
  if folderPath = "" then ("", rows)
  else
    let folderId := env.folderIdOf workspaceId folderPath
    if rows.any (fun f => f.folderId = folderId) then (folderId, rows)
    else
      let parentFolderPath := extractFolderPath folderPath
      let pr :=
        if parentFolderPath = "" then (none, rows)
        else
          let r := getOrCreateFolderId env rows workspaceId folderPath
          (some r.1, r.2)
      let row : FolderRow :=
        { folderId := folderId
          workspaceId := workspaceId
          parentFolderId := pr.1
          folderPath := folderPath
          folderName := extractFolderName folderPath
          createdAt := env.now }
      -- INSERT ... ON CONFLICT (folder_id) DO NOTHING
      if pr.2.any (fun f => f.folderId = folderId) then (folderId, pr.2)
      else (folderId, pr.2 ++ [row])
termination_by filePath.length
decreasing_by
  have key : ∀ cs : List Char, ∀ r, beforeLastSlash cs = some r →
      r.length < cs.length := by
    intro cs
    induction cs with
    | nil => intro r hr; simp [beforeLastSlash] at hr
    | cons c cs ih =>
      intro r hr
      simp only [beforeLastSlash] at hr
      cases hbls : beforeLastSlash cs with
      | some r2 =>
        rw [hbls] at hr
        cases hr
        have := ih r2 hbls
        simp only [List.length_cons]
        omega
      | none =>
        rw [hbls] at hr
        by_cases hc : c = '/'
        · rw [if_pos hc] at hr
          cases hr
          simp
        · simp [hc] at hr
  rename_i hne0
  have hne : ¬ extractFolderPath filePath = "" := hne0
  show (extractFolderPath filePath).length < filePath.length
  unfold extractFolderPath
  cases hb : beforeLastSlash (normalizePath filePath).data with
  | none =>
    exfalso; apply hne; unfold extractFolderPath; rw [hb]
  | some r =>
    by_cases hr : r.isEmpty = true
    · exfalso; apply hne; unfold extractFolderPath; rw [hb]
      exact if_pos hr
    · dsimp only
      rw [if_neg hr]
      have hlt := key _ _ hb
      have hdata : (normalizePath filePath).data.length = filePath.data.length := by
        simp [normalizePath]
      have hmk : (String.mk r).length = r.length := rfl
      have hlen : filePath.length = filePath.data.length := rfl
      omega

/-- The `ON CONFLICT (file_id) DO UPDATE SET ...` clause of
`upsertIndexedFile` (vectorDbService.ts lines 327-337): the conflicting row
keeps its `file_id` and `workspace_id` and takes the new values of every
other column. -/
def applyFileUpdate (old new : FileRow) : FileRow :=
  { old with
    filePath := new.filePath
    folderId := new.folderId
    fileName := new.fileName
    absolutePath := new.absolutePath
    fileSize := new.fileSize
    lastIndexedAt := new.lastIndexedAt
    md5Hash := new.md5Hash }

/-- Insert-or-update of a row of `indexed_files_v1` keyed by `file_id`. -/
def upsertFileRow (rows : List FileRow) (row : FileRow) : List FileRow :=
  if rows.any (fun f => f.fileId = row.fileId) then
    rows.map fun f => if f.fileId = row.fileId then applyFileUpdate f row else f
  else rows ++ [row]

/-- `upsertIndexedFile` (vectorDbService.ts lines 318-351): the `||` fallbacks
for `fileName`, `workspaceId` and `folderId`, then the keyed insert. -/
def upsertIndexedFile (env : Env) (s : DbState) (file : IndexedFile) : DbState :=
  let fileName := if file.fileName = "" then extractFileName file.filePath else file.fileName
  let wsr :=
    if file.workspaceId = "" then
      getOrCreateWorkspaceId env s.workspaces (file.workspacePath.getD "")
    else (file.workspaceId, s.workspaces)
  let fr :=
    if file.folderId = "" then getOrCreateFolderId env s.folders wsr.1 file.filePath
    else (file.folderId, s.folders)
  let row : FileRow :=
    { fileId := file.fileId
      workspaceId := wsr.1
      folderId := fr.1
      filePath := file.filePath
      fileName := fileName
      absolutePath := file.absolutePath
      fileSize := file.fileSize
      lastIndexedAt := file.lastIndexedAt
      md5Hash := file.md5Hash }
  { s with
    workspaces := wsr.2
    folders := fr.2
    files := upsertFileRow s.files row }

/-- The `ON CONFLICT (chunk_id) DO UPDATE SET ...` clause of `addChunk`
(vectorDbService.ts lines 189-197): the conflicting row keeps `chunk_id`,
`file_id`, `file_path`, `workspace_id` and `workspace_path`. -/
def applyChunkUpdate (old new : ChunkRow) : ChunkRow :=
  { old with
    content := new.content
    lineStart := new.lineStart
    linePosStart := new.linePosStart
    lineEnd := new.lineEnd
    linePosEnd := new.linePosEnd
    chunkIndex := new.chunkIndex
    embedding := new.embedding
    createdAt := new.createdAt }

/-- Insert-or-update of a row of `file_chunks_small_v1` keyed by `chunk_id`. -/
def upsertChunkRow (rows : List ChunkRow) (row : ChunkRow) : List ChunkRow :=
  if rows.any (fun c => c.chunkId = row.chunkId) then
    rows.map fun c => if c.chunkId = row.chunkId then applyChunkUpdate c row else c
  else rows ++ [row]

/-- `addChunk` (vectorDbService.ts lines 168-201): embeds the chunk content
with the document task format and inserts the row. -/
def addChunk (env : Env) (s : DbState) (chunk : CodeChunkInput) : DbState :=
  let embedding := env.embedDocument chunk.content chunk.filePath
  let row : ChunkRow :=
    { chunkId := chunk.chunkId
      fileId := chunk.fileId
      filePath := chunk.filePath
      workspaceId := chunk.workspaceId
      workspacePath := chunk.workspacePath
      content := chunk.content
      lineStart := chunk.lineStart
      linePosStart := chunk.linePosStart
      lineEnd := chunk.lineEnd
      linePosEnd := chunk.linePosEnd
      chunkIndex := chunk.chunkIndex.getD 0
      embedding := embedding
      createdAt := env.now }
  { s with chunks := upsertChunkRow s.chunks row }

/-- `addChunks` (vectorDbService.ts lines 206-210): sequential `addChunk`. -/
def addChunks (env : Env) (s : DbState) (chunks : List CodeChunkInput) : DbState :=
  chunks.foldl (addChunk env) s

/-- `search` (vectorDbService.ts lines 215-267): embed the query with the
query task format, select the chunk rows (optionally filtered to a
workspace path), order ascending by cosine distance, apply `LIMIT`, and map
each row to a result with `score = 1 - distance`. -/
def search (env : Env) (s : DbState) (query : String)
    (workspacePath : Option String) (limit : Nat) :
    Except String (List SearchResult) :=
  match env.embedQuery query with
  | Except.error e => Except.error e
  | Except.ok queryEmbedding =>
    let rows : List ChunkRow :=
      match workspacePath with
      | some wp => s.chunks.filter fun c => c.workspacePath = wp
      | none => s.chunks
    let scored := rows.map fun c => (c, env.cosineDistance c.embedding queryEmbedding)
    let sorted := scored.mergeSort fun a b => decide (a.2 ≤ b.2)
    let limited := sorted.take limit
    Except.ok (limited.map fun (p : ChunkRow × Rat) =>
      { filePath := p.1.filePath
        lineStart := p.1.lineStart
        lineEnd := p.1.lineEnd
        content := p.1.content
        score := 1 - p.2 })

/-- Step 1 of `deleteWorkspaceIndex` (vectorDbService.ts lines 624-627):
`DELETE FROM file_chunks_small_v1 WHERE workspace_path = ...`. -/
def deleteChunksForWorkspace (s : DbState) (workspacePath : String) : DbState :=
  { s with chunks := s.chunks.filter fun c => ¬ (c.workspacePath = workspacePath) }

/-- Step 2 of `deleteWorkspaceIndex` (vectorDbService.ts lines 629-632):
`DELETE FROM indexed_files_v1 WHERE workspace_id = ...`. -/
def deleteFilesForWorkspace (s : DbState) (workspaceId : String) : DbState :=
  { s with files := s.files.filter fun f => ¬ (f.workspaceId = workspaceId) }

/-- Step 3 of `deleteWorkspaceIndex` (vectorDbService.ts lines 634-637):
`DELETE FROM folders_v1 WHERE workspace_id = ...`. -/
def deleteFoldersForWorkspace (s : DbState) (workspaceId : String) : DbState :=
  { s with folders := s.folders.filter fun f => ¬ (f.workspaceId = workspaceId) }

/-- `deleteWorkspaceIndex` (vectorDbService.ts lines 613-638): no-op when the
workspace record does not exist, otherwise deletes chunks, then indexed
files, then folders of that workspace. -/
def deleteWorkspaceIndex (s : DbState) (workspacePath : String) : DbState :=
  match getWorkspaceByPath s workspacePath with
  | none => s
  | some workspace =>
    deleteFoldersForWorkspace
      (deleteFilesForWorkspace
        (deleteChunksForWorkspace s workspacePath)
        workspace.workspaceId)
      workspace.workspaceId

/-! ## IndexingService (`src/unnamed/part_004`, `indexingService.ts`) -/

/-- `IndexingStatus` (types.ts lines 127-132). -/
structure IndexingStatus where
  isIndexing : Bool
  totalFiles : Nat
  processedFiles : Nat
  currentFile : Option String
deriving Repr, DecidableEq

/-- The write path of `IndexingService.indexFile` (part_004): create the
workspace id, chunk the content, build the `CodeChunkInput` records, add
them to the vector store, and upsert the `IndexedFile` metadata row. -/
def indexFileWrite (env : Env) (s : DbState)
    (workspacePath filePath fileId md5Hash content : String) : DbState :=
  let wsr := getOrCreateWorkspaceId env s.workspaces workspacePath
  let workspaceId := wsr.1
  let s1 := { s with workspaces := wsr.2 }
  let rawChunks := env.smartChunk content filePath
  let chunks := rawChunks.enum.map fun (p : Nat × TokenChunk) =>
    let chunk := p.2
    let lastLineLen := ((splitLines chunk.content).getLastD "").length
    { chunkId := generateChunkId fileId chunk.lineStart chunk.lineEnd
      fileId := fileId
      filePath := filePath
      workspaceId := workspaceId
      workspacePath := workspacePath
      content := chunk.content
      lineStart := chunk.lineStart
      linePosStart := 1
      lineEnd := chunk.lineEnd
      linePosEnd := if lastLineLen = 0 then 1 else lastLineLen
      chunkIndex := some p.1 : CodeChunkInput }
  let s2 := if chunks.length > 0 then addChunks env s1 chunks else s1
  let indexedFile : IndexedFile :=
    { fileId := fileId
      workspaceId := workspaceId
      folderId := ""
      filePath := filePath
      fileName := fileNameOf filePath
      absolutePath := filePath
      fileSize := none
      lastIndexedAt := env.now
      md5Hash := md5Hash
      workspacePath := some workspacePath }
  upsertIndexedFile env s2 indexedFile

/-- `IndexingService.indexFile` (part_004 lines 118-178): hash the content,
skip entirely when an existing `IndexedFile` row carries the same hash,
otherwise delete the old chunks and run the write path. -/
def indexFile (env : Env) (s : DbState)
    (workspacePath fsPath content : String) : DbState :=
  let filePath := normalizePath fsPath
  let fileId := env.generateFileId workspacePath filePath
  let md5Hash := env.calculateMD5 content
  match getIndexedFile s fileId with
  | some existingFile =>
    if existingFile.md5Hash = md5Hash then s
    else indexFileWrite env (deleteFileChunks s fileId) workspacePath filePath fileId md5Hash content
  | none => indexFileWrite env s workspacePath filePath fileId md5Hash content

/-- `IndexingService.indexWorkspace` (part_004 lines 67-115): rejected with
an error before any file is enumerated or processed when an indexing run is
already active; otherwise every enumerated file is indexed sequentially
(per-file errors are caught and skipped, which the pure model has no case
for). -/
def indexWorkspace (env : Env) (status : IndexingStatus) (s : DbState)
    (workspacePath : String) (files : List (String × String)) :
    Except String DbState :=
  if status.isIndexing then Except.error "Indexing already in progress"
  else
    Except.ok (files.foldl (fun acc f => indexFile env acc workspacePath f.1 f.2) s)

/-- `IndexingService.indexFiles` (part_004 lines 184-225): the same guard on
the shared `isIndexing` flag, over an explicit file list. -/
def indexFiles (env : Env) (status : IndexingStatus) (s : DbState)
    (workspacePath : String) (files : List (String × String)) :
    Except String DbState :=
  if status.isIndexing then Except.error "Indexing already in progress"
  else
    Except.ok (files.foldl (fun acc f => indexFile env acc workspacePath f.1 f.2) s)

/-! ## Concrete instances used for witnesses and counterexamples -/

/-- A concrete tokenizer valuation: line "b" counts 255 tokens, any other
line one token per character (achievable token counts for `cl100k_base`). -/
def tokC1 : String → Nat := fun s => if s = "b" then 255 else s.length

/-- A configuration with the minimum token budget and a one-token overlap. -/
def cfgC1 : IndexingConfig :=
  { DEFAULT_INDEXING_CONFIG with chunkMaxTokens := 256, chunkOverlapTokens := 1 }

/-- Three lines whose token counts are 1, 255 and 10 under `tokC1`. -/
def contentC1 : String := "a\nb\ncccccccccc"

/-- A concrete external-collaborator instance for witnesses. -/
def envW : Env :=
  { calculateMD5 := fun s => "h" ++ s
    generateFileId := fun w f => w ++ ":" ++ f
    workspaceIdOf := fun w => "ws-" ++ w
    folderIdOf := fun w p => w ++ "+" ++ p
    smartChunk := fun content _ =>
      [{ content := content, lineStart := 1, lineEnd := 1,
         tokenStart := 0, tokenEnd := 1 }]
    embedDocument := fun _ _ => [1]
    embedQuery := fun _ => Except.ok [1]
    cosineDistance := fun _ _ => 0
    now := 7 }

/-- The empty database state. -/
def emptyDb : DbState := { workspaces := [], folders := [], files := [], chunks := [] }

/-- A stored file row whose hash matches `envW.calculateMD5 "c"`. -/
def rowC5 : FileRow :=
  { fileId := "w:f", workspaceId := "ws-w", folderId := "", filePath := "f",
    fileName := "f", absolutePath := "f", fileSize := none,
    lastIndexedAt := 0, md5Hash := "hc" }

/-- A database state holding only `rowC5`. -/
def dbC5 : DbState := { workspaces := [], folders := [], files := [rowC5], chunks := [] }

/-- Workspace row for path "A". -/
def wsA : WorkspaceRow :=
  { workspaceId := "idA", workspacePath := "A", workspaceName := "A",
    status := "active", createdAt := 0 }

/-- A chunk row of workspace "A". -/
def chunkA : ChunkRow :=
  { chunkId := "cA", fileId := "fA", filePath := "pA", workspaceId := "idA",
    workspacePath := "A", content := "x", lineStart := 1, linePosStart := 1,
    lineEnd := 1, linePosEnd := 1, chunkIndex := 0, embedding := [1],
    createdAt := 0 }

/-- A chunk row of workspace "B". -/
def chunkB : ChunkRow :=
  { chunkId := "cB", fileId := "fB", filePath := "pB", workspaceId := "idB",
    workspacePath := "B", content := "y", lineStart := 1, linePosStart := 1,
    lineEnd := 1, linePosEnd := 1, chunkIndex := 0, embedding := [1],
    createdAt := 0 }

/-- A file row of workspace "A". -/
def fileA : FileRow :=
  { fileId := "fA", workspaceId := "idA", folderId := "dA", filePath := "pA",
    fileName := "pA", absolutePath := "pA", fileSize := none,
    lastIndexedAt := 0, md5Hash := "hA" }

/-- A file row of workspace "B". -/
def fileB : FileRow :=
  { fileId := "fB", workspaceId := "idB", folderId := "dB", filePath := "pB",
    fileName := "pB", absolutePath := "pB", fileSize := none,
    lastIndexedAt := 0, md5Hash := "hB" }

/-- A folder row of workspace "A". -/
def folderA : FolderRow :=
  { folderId := "dA", workspaceId := "idA", parentFolderId := none,
    folderPath := "a", folderName := "a", createdAt := 0 }

/-- A folder row of workspace "B". -/
def folderB : FolderRow :=
  { folderId := "dB", workspaceId := "idB", parentFolderId := none,
    folderPath := "b", folderName := "b", createdAt := 0 }

/-- A database state holding rows of workspaces "A" and "B" (only "A" has a
workspace record). -/
def dbC6 : DbState :=
  { workspaces := [wsA], folders := [folderA, folderB],
    files := [fileA, fileB], chunks := [chunkA, chunkB] }

/-- A status with an indexing run in progress. -/
def stBusy : IndexingStatus :=
  { isIndexing := true, totalFiles := 0, processedFiles := 0, currentFile := none }

/-! ## Lemmas about the chunker -/

theorem splitLinesList_ne_nil (cs : List Char) : splitLinesList cs ≠ [] := by
  cases cs with
  | nil => simp [splitLinesList]
  | cons c cs =>
    simp only [splitLinesList]
    cases splitLinesList cs with
    | nil => simp
    | cons l ls =>
      by_cases hc : c = '\n'
      · simp [hc]
      · simp [hc]

theorem splitLines_length_pos (s : String) : 0 < (splitLines s).length := by
  unfold splitLines
  rw [List.length_map]
  cases h : splitLinesList s.data with
  | nil => exact absurd h (splitLinesList_ne_nil s.data)
  | cons l ls => simp

theorem tokenStartAt_succ (tok : String → Nat) (lines : List String) (i : Nat) :
    tokenStartAt tok lines (i + 1) = tokenEndAt tok lines i := rfl

theorem tokenStartAt_le_tokenEndAt (tok : String → Nat) (lines : List String)
    (i : Nat) : tokenStartAt tok lines i ≤ tokenEndAt tok lines i := by
  unfold tokenStartAt tokenEndAt
  by_cases h : i < lines.length
  · rw [List.map_take, List.map_take,
      List.sum_take_succ (lines.map tok) i (by simpa using h)]
    omega
  · rw [List.take_of_length_le (by omega), List.take_of_length_le (by omega)]

theorem tokenStartAt_mono (tok : String → Nat) (lines : List String)
    {i j : Nat} (hij : i ≤ j) :
    tokenStartAt tok lines i ≤ tokenStartAt tok lines j := by
  induction j with
  | zero => simp_all
  | succ j ih =>
    rcases Nat.lt_or_ge i (j + 1) with hlt | hge
    · have h1 : tokenStartAt tok lines i ≤ tokenStartAt tok lines j := ih (by omega)
      have h2 : tokenStartAt tok lines j ≤ tokenStartAt tok lines (j + 1) :=
        tokenStartAt_le_tokenEndAt tok lines j
      omega
    · have : i = j + 1 := by omega
      subst this
      exact le_refl _

theorem growEnd_ge (tEnd : Nat → Nat) (maxT cts n s : Nat) :
    ∀ e, s + 1 ≤ e → s + 1 ≤ growEnd tEnd maxT cts n s e := by
  have key : ∀ k e, n + 1 - e ≤ k → s + 1 ≤ e →
      s + 1 ≤ growEnd tEnd maxT cts n s e := by
    intro k
    induction k with
    | zero =>
      intro e hk he
      rw [growEnd]
      have : ¬ e ≤ n := by omega
      simp [this]
      omega
    | succ k ih =>
      intro e hk he
      rw [growEnd]
      split
      · split
        · split <;> omega
        · have := ih (e + 1) (by omega) (by omega)
          omega
      · omega
  intro e he
  exact key (n + 1 - e) e (le_refl _) he

theorem growEnd_le (tEnd : Nat → Nat) (maxT cts n s : Nat) :
    ∀ e, e ≤ n + 1 → growEnd tEnd maxT cts n s e ≤ n + 1 := by
  have key : ∀ k e, n + 1 - e ≤ k → e ≤ n + 1 → growEnd tEnd maxT cts n s e ≤ n + 1 := by
    intro k
    induction k with
    | zero =>
      intro e hk he
      rw [growEnd]
      have : ¬ e ≤ n := by omega
      simp [this]
      omega
    | succ k ih =>
      intro e hk he
      rw [growEnd]
      split
      · split
        · split <;> omega
        · exact ih (e + 1) (by omega) (by omega)
      · omega
  intro e he
  exact key (n + 1 - e) e (le_refl _) he

theorem growEnd_budget (tEnd : Nat → Nat) (maxT cts n s : Nat) :
    ∀ e, s + 1 ≤ e → e ≤ n + 1 →
      (e = s + 1 ∨ tEnd (e - 2) - cts ≤ maxT) →
      (growEnd tEnd maxT cts n s e = s + 1 ∨
        tEnd (min (growEnd tEnd maxT cts n s e) n - 1) - cts ≤ maxT) := by
  have key : ∀ k e, n + 1 - e ≤ k → s + 1 ≤ e → e ≤ n + 1 →
      (e = s + 1 ∨ tEnd (e - 2) - cts ≤ maxT) →
      (growEnd tEnd maxT cts n s e = s + 1 ∨
        tEnd (min (growEnd tEnd maxT cts n s e) n - 1) - cts ≤ maxT) := by
    intro k
    induction k with
    | zero =>
      intro e hk hse hen hinv
      rw [growEnd]
      have hne : ¬ e ≤ n := by omega
      simp only [hne, dite_false]
      rcases hinv with h1 | h2
      · exact Or.inl h1
      · right
        have : e = n + 1 := by omega
        subst this
        have : min (n + 1) n = n := by omega
        rw [this]
        exact h2
    | succ k ih =>
      intro e hk hse hen hinv
      rw [growEnd]
      split
      · rename_i hen2
        split
        · rename_i hbig
          split
          · rename_i hgt
            -- back off one line: the previously accepted end fits the budget
            right
            rcases hinv with h1 | h2
            · omega
            · have : min (e - 1) n = e - 1 := by omega
              rw [this]
              exact h2
          · -- single-line window: accepted even though it exceeds the budget
            left
            omega
        · rename_i hfit
          -- the candidate fits: continue growing
          refine ih (e + 1) (by omega) (by omega) (by omega) ?_
          right
          have : e + 1 - 2 = e - 1 := by omega
          rw [this]
          omega
      · rename_i hne
        rcases hinv with h1 | h2
        · exact Or.inl h1
        · right
          have : e = n + 1 := by omega
          subst this
          have : min (n + 1) n = n := by omega
          rw [this]
          exact h2
  intro e hse hen hinv
  exact key (n + 1 - e) e (le_refl _) hse hen hinv

theorem chunkEnd_ge (tok : String → Nat) (lines : List String) (maxT s : Nat)
    (hs : s < lines.length) : s + 1 ≤ chunkEnd tok lines maxT s := by
  unfold chunkEnd clampEnd
  dsimp only
  have hge := growEnd_ge (tokenEndAt tok lines) maxT (tokenStartAt tok lines s)
    lines.length s (s + 1) (le_refl _)
  split <;> split <;> omega

theorem chunkEnd_le (tok : String → Nat) (lines : List String) (maxT s : Nat) :
    chunkEnd tok lines maxT s ≤ lines.length := by
  unfold chunkEnd clampEnd
  dsimp only
  split <;> split <;> omega

theorem chunkEnd_eq (tok : String → Nat) (lines : List String) (maxT s : Nat)
    (hs : s < lines.length) :
    chunkEnd tok lines maxT s =
      min (growEnd (tokenEndAt tok lines) maxT (tokenStartAt tok lines s)
        lines.length s (s + 1)) lines.length := by
  have hge := growEnd_ge (tokenEndAt tok lines) maxT (tokenStartAt tok lines s)
    lines.length s (s + 1) (le_refl _)
  unfold chunkEnd clampEnd
  dsimp only
  split <;> split <;> omega

theorem chunkEnd_budget (tok : String → Nat) (lines : List String) (maxT s : Nat)
    (hs : s < lines.length) :
    chunkEnd tok lines maxT s = s + 1 ∨
      tokenEndAt tok lines (chunkEnd tok lines maxT s - 1) -
        tokenStartAt tok lines s ≤ maxT := by
  have hb := growEnd_budget (tokenEndAt tok lines) maxT (tokenStartAt tok lines s)
    lines.length s (s + 1) (le_refl _) (by omega) (Or.inl rfl)
  rw [chunkEnd_eq tok lines maxT s hs]
  rcases hb with h1 | h2
  · left
    rw [h1]
    omega
  · right
    exact h2

theorem findOverlapStart_spec (tS : Nat → Nat) (desired hi : Nat) :
    ∀ lo, (desired ≤ tS (findOverlapStart tS desired lo hi) ∧
        lo ≤ findOverlapStart tS desired lo hi ∧
        findOverlapStart tS desired lo hi < hi) ∨
      findOverlapStart tS desired lo hi = hi - 1 := by
  have key : ∀ k lo, hi - lo ≤ k →
      (desired ≤ tS (findOverlapStart tS desired lo hi) ∧
        lo ≤ findOverlapStart tS desired lo hi ∧
        findOverlapStart tS desired lo hi < hi) ∨
      findOverlapStart tS desired lo hi = hi - 1 := by
    intro k
    induction k with
    | zero =>
      intro lo hk
      rw [findOverlapStart]
      have : ¬ lo < hi := by omega
      simp [this]
    | succ k ih =>
      intro lo hk
      rw [findOverlapStart]
      split
      · split
        · rename_i hlt hfound
          left
          exact ⟨hfound, le_refl _, hlt⟩
        · rcases ih (lo + 1) (by omega) with ⟨ha, hb, hc⟩ | hd
          · exact Or.inl ⟨ha, by omega, hc⟩
          · exact Or.inr hd
      · right
        rfl
  intro lo
  exact key (hi - lo) lo (le_refl _)

theorem nextStart_gt (tok : String → Nat) (lines : List String)
    (maxT overlap s : Nat) (hs : s < lines.length) :
    s < nextStart tok lines maxT overlap s := by
  have h1 : s < chunkEnd tok lines maxT s := chunkEnd_ge tok lines maxT s hs
  unfold nextStart
  dsimp only
  split
  · exact h1
  · split
    · omega
    · omega

theorem nextStart_overlap (tok : String → Nat) (lines : List String)
    (maxT overlap s : Nat) (hs : s < lines.length) (hov : overlap ≠ 0) :
    tokenEndAt tok lines (chunkEnd tok lines maxT s - 1) - overlap ≤
        tokenStartAt tok lines (nextStart tok lines maxT overlap s) ∨
      nextStart tok lines maxT overlap s + 1 = chunkEnd tok lines maxT s := by
  have hge : s + 1 ≤ chunkEnd tok lines maxT s := chunkEnd_ge tok lines maxT s hs
  unfold nextStart
  dsimp only
  rw [if_neg hov]
  set e := chunkEnd tok lines maxT s with he
  set cts := tokenStartAt tok lines s with hcts
  set tokEnd := tokenEndAt tok lines (e - 1) with htokEnd
  set desired := max cts (tokEnd - overlap) with hdesired
  have hscan := findOverlapStart_spec (tokenStartAt tok lines) desired e (s + 1)
  set scanned := findOverlapStart (tokenStartAt tok lines) desired (s + 1) e
    with hscanned
  split
  · rename_i hle
    -- scanned ≤ s: the scan failed and the window was a single line, so the
    -- next start is s + 1 = e and its token offset equals the chunk end
    left
    rcases hscan with ⟨ha, hb, hc⟩ | hd
    · omega
    · have hes : e = s + 1 := by omega
      have : tokenStartAt tok lines (s + 1) = tokenEndAt tok lines s :=
        tokenStartAt_succ tok lines s
      rw [hes] at htokEnd
      simp only [Nat.add_sub_cancel] at htokEnd
      omega
  · rename_i hgt
    rcases hscan with ⟨ha, hb, hc⟩ | hd
    · left
      omega
    · right
      omega

theorem mkChunk_lineStart (tok : String → Nat) (lines : List String)
    (maxT s : Nat) : (mkChunk tok lines maxT s).lineStart = s + 1 := rfl

theorem mkChunk_lineEnd (tok : String → Nat) (lines : List String)
    (maxT s : Nat) : (mkChunk tok lines maxT s).lineEnd = chunkEnd tok lines maxT s := rfl

theorem mkChunk_tokenStart (tok : String → Nat) (lines : List String)
    (maxT s : Nat) :
    (mkChunk tok lines maxT s).tokenStart = tokenStartAt tok lines s := rfl

theorem mkChunk_tokenEnd (tok : String → Nat) (lines : List String)
    (maxT s : Nat) :
    (mkChunk tok lines maxT s).tokenEnd =
      tokenEndAt tok lines (chunkEnd tok lines maxT s - 1) := rfl

theorem chunkLoop_nil (tok : String → Nat) (lines : List String)
    (maxT overlap s : Nat) (hs : ¬ s < lines.length) :
    chunkLoop tok lines maxT overlap s = [] := by
  rw [chunkLoop]
  simp [hs]

theorem chunkLoop_cons (tok : String → Nat) (lines : List String)
    (maxT overlap s : Nat) (hs : s < lines.length) :
    chunkLoop tok lines maxT overlap s =
      mkChunk tok lines maxT s ::
        (if chunkEnd tok lines maxT s ≥ lines.length then []
         else chunkLoop tok lines maxT overlap (nextStart tok lines maxT overlap s)) := by
  rw [chunkLoop]
  simp only [hs, dite_true]
  split <;> simp

theorem chunkLoop_mem (tok : String → Nat) (lines : List String)
    (maxT overlap : Nat) :
    ∀ s c, c ∈ chunkLoop tok lines maxT overlap s →
      ∃ t, s ≤ t ∧ t < lines.length ∧ c = mkChunk tok lines maxT t := by
  have key : ∀ k s c, lines.length - s ≤ k →
      c ∈ chunkLoop tok lines maxT overlap s →
      ∃ t, s ≤ t ∧ t < lines.length ∧ c = mkChunk tok lines maxT t := by
    intro k
    induction k with
    | zero =>
      intro s c hk hc
      by_cases hs : s < lines.length
      · omega
      · rw [chunkLoop_nil tok lines maxT overlap s hs] at hc
        simp at hc
    | succ k ih =>
      intro s c hk hc
      by_cases hs : s < lines.length
      · rw [chunkLoop_cons tok lines maxT overlap s hs] at hc
        rcases List.mem_cons.mp hc with h1 | h2
        · exact ⟨s, le_refl _, hs, h1⟩
        · split at h2
          · simp at h2
          · have hnext := nextStart_gt tok lines maxT overlap s hs
            rcases ih (nextStart tok lines maxT overlap s) c (by omega) h2 with
              ⟨t, ht1, ht2, ht3⟩
            exact ⟨t, by omega, ht2, ht3⟩
      · rw [chunkLoop_nil tok lines maxT overlap s hs] at hc
        simp at hc
  intro s c hc
  exact key (lines.length - s) s c (le_refl _) hc

theorem chunkLoop_chain (tok : String → Nat) (lines : List String)
    (maxT overlap : Nat) (hov : overlap ≠ 0) :
    ∀ s i c c2, (chunkLoop tok lines maxT overlap s).get? i = some c →
      (chunkLoop tok lines maxT overlap s).get? (i + 1) = some c2 →
      c.lineStart < c2.lineStart ∧
        (c.tokenEnd - overlap ≤ tokenStartAt tok lines (c2.lineStart - 1) ∨
          c2.lineStart = c.lineEnd) := by
  have key : ∀ k s, lines.length - s ≤ k →
      ∀ i c c2, (chunkLoop tok lines maxT overlap s).get? i = some c →
      (chunkLoop tok lines maxT overlap s).get? (i + 1) = some c2 →
      c.lineStart < c2.lineStart ∧
        (c.tokenEnd - overlap ≤ tokenStartAt tok lines (c2.lineStart - 1) ∨
          c2.lineStart = c.lineEnd) := by
    intro k
    induction k with
    | zero =>
      intro s hk i c c2 hc hc2
      by_cases hs : s < lines.length
      · omega
      · rw [chunkLoop_nil tok lines maxT overlap s hs] at hc
        simp at hc
    | succ k ih =>
      intro s hk i c c2 hc hc2
      by_cases hs : s < lines.length
      case neg =>
        rw [chunkLoop_nil tok lines maxT overlap s hs] at hc
        simp at hc
      case pos =>
      have hloop := chunkLoop_cons tok lines maxT overlap s hs
      by_cases hend : chunkEnd tok lines maxT s ≥ lines.length
      · rw [hloop] at hc2
        simp only [hend, if_true] at hc2
        cases i <;> simp at hc2
      · have hnext := nextStart_gt tok lines maxT overlap s hs
        have hloop2 : chunkLoop tok lines maxT overlap s =
            mkChunk tok lines maxT s ::
              chunkLoop tok lines maxT overlap (nextStart tok lines maxT overlap s) := by
          rw [hloop, if_neg hend]
        rw [hloop2] at hc hc2
        cases i with
        | zero =>
          -- the pair is the freshly pushed chunk and the head of the rest
          simp only [List.get?_cons_zero, Option.some.injEq] at hc
          simp only [List.get?_cons_succ] at hc2
          have hnlt : nextStart tok lines maxT overlap s < lines.length := by
            by_contra hge
            rw [chunkLoop_nil tok lines maxT overlap _ hge] at hc2
            simp at hc2
          rw [chunkLoop_cons tok lines maxT overlap _ hnlt] at hc2
          simp only [List.get?_cons_zero, Option.some.injEq] at hc2
          subst hc
          subst hc2
          rw [mkChunk_lineStart, mkChunk_lineStart, mkChunk_lineEnd, mkChunk_tokenEnd]
          refine ⟨by omega, ?_⟩
          have hov2 := nextStart_overlap tok lines maxT overlap s hs hov
          simp only [Nat.add_sub_cancel]
          rcases hov2 with h1 | h2
          · exact Or.inl h1
          · exact Or.inr h2
        | succ j =>
          simp only [List.get?_cons_succ] at hc hc2
          exact ih (nextStart tok lines maxT overlap s) (by omega) j c c2 hc hc2
  intro s i c c2 hc hc2
  exact key (lines.length - s) s (le_refl _) i c c2 hc hc2

/-! ## Claim theorems: the token chunker -/

unseal growEnd findOverlapStart chunkLoop in
/-- C1 (counterexample): under `cfgC1` (clamped overlap 1) the chunker on
`contentC1` produces adjacent chunks 0 and 1, yet the token offset of chunk
1's start line (1) is strictly below chunk 0's end token minus the overlap
(256 - 1 = 255): the overlap bound claimed for all adjacent pairs fails. -/
theorem C1_counterexample :
    clampOverlapTokens cfgC1.chunkOverlapTokens (clampMaxTokens cfgC1.chunkMaxTokens) = 1 ∧
    (splitIntoTokenChunks tokC1 contentC1 cfgC1).get? 0 =
      some { content := "a\nb", lineStart := 1, lineEnd := 2,
             tokenStart := 0, tokenEnd := 256 } ∧
    (splitIntoTokenChunks tokC1 contentC1 cfgC1).get? 1 =
      some { content := "b", lineStart := 2, lineEnd := 2,
             tokenStart := 1, tokenEnd := 256 } ∧
    tokenStartAt tokC1 (splitLines contentC1) (2 - 1) < 256 - 1 := by
  refine ⟨rfl, rfl, rfl, ?_⟩
  decide

/-- C1 (amended): for adjacent chunks of `splitIntoTokenChunks` under a
clamped overlap > 0, the later chunk's start line is strictly greater than
the earlier chunk's start line, and its start line's token offset is at
least (earlier chunk's end token) - overlapTokens unless the later chunk
starts exactly at the earlier chunk's last line (which happens when that
last line alone spans more than overlapTokens tokens). -/
theorem C1_overlap_progress_amended (tok : String → Nat) (content : String)
    (config : IndexingConfig) (i : Nat) (c c2 : TokenChunk)
    (hov : clampOverlapTokens config.chunkOverlapTokens
      (clampMaxTokens config.chunkMaxTokens) ≠ 0)
    (hc : (splitIntoTokenChunks tok content config).get? i = some c)
    (hc2 : (splitIntoTokenChunks tok content config).get? (i + 1) = some c2) :
    c.lineStart < c2.lineStart ∧
      (c.tokenEnd -
          clampOverlapTokens config.chunkOverlapTokens
            (clampMaxTokens config.chunkMaxTokens) ≤
          tokenStartAt tok (splitLines content) (c2.lineStart - 1) ∨
        c2.lineStart = c.lineEnd) := by
  unfold splitIntoTokenChunks at hc hc2
  dsimp only at hc hc2
  by_cases h0 : (splitLines content).length = 0
  · rw [if_pos h0] at hc
    simp at hc
  · rw [if_neg h0] at hc hc2
    by_cases ht : ((splitLines content).map tok).sum ≤
        clampMaxTokens config.chunkMaxTokens
    · rw [if_pos ht] at hc2
      simp at hc2
    · rw [if_neg ht] at hc hc2
      exact chunkLoop_chain tok (splitLines content)
        (clampMaxTokens config.chunkMaxTokens)
        (clampOverlapTokens config.chunkOverlapTokens
          (clampMaxTokens config.chunkMaxTokens)) hov 0 i c c2 hc hc2

unseal growEnd findOverlapStart chunkLoop in
/-- Witness for C1 (amended) at the concrete input of the counterexample:
there the second disjunct holds (chunk 1 starts at chunk 0's last line). -/
theorem C1_overlap_progress_amended_witness :
    ({ content := "a\nb", lineStart := 1, lineEnd := 2, tokenStart := 0,
       tokenEnd := 256 : TokenChunk }).lineStart <
      ({ content := "b", lineStart := 2, lineEnd := 2, tokenStart := 1,
         tokenEnd := 256 : TokenChunk }).lineStart ∧
    (({ content := "a\nb", lineStart := 1, lineEnd := 2, tokenStart := 0,
        tokenEnd := 256 : TokenChunk }).tokenEnd -
        clampOverlapTokens cfgC1.chunkOverlapTokens
          (clampMaxTokens cfgC1.chunkMaxTokens) ≤
        tokenStartAt tokC1 (splitLines contentC1)
          (({ content := "b", lineStart := 2, lineEnd := 2, tokenStart := 1,
              tokenEnd := 256 : TokenChunk }).lineStart - 1) ∨
      ({ content := "b", lineStart := 2, lineEnd := 2, tokenStart := 1,
         tokenEnd := 256 : TokenChunk }).lineStart =
        ({ content := "a\nb", lineStart := 1, lineEnd := 2, tokenStart := 0,
           tokenEnd := 256 : TokenChunk }).lineEnd) :=
  C1_overlap_progress_amended tokC1 contentC1 cfgC1 0 _ _ (by decide) rfl rfl

/-- C2: every chunk fits the clamped token budget, except possibly a chunk
consisting of a single line (whose token count alone may exceed it). -/
theorem C2_chunk_budget (tok : String → Nat) (content : String)
    (config : IndexingConfig) (c : TokenChunk)
    (hc : c ∈ splitIntoTokenChunks tok content config) :
    c.tokenEnd - c.tokenStart ≤ clampMaxTokens config.chunkMaxTokens ∨
      c.lineStart = c.lineEnd := by
  unfold splitIntoTokenChunks at hc
  dsimp only at hc
  by_cases h0 : (splitLines content).length = 0
  · rw [if_pos h0] at hc
    simp at hc
  · rw [if_neg h0] at hc
    by_cases ht : ((splitLines content).map tok).sum ≤
        clampMaxTokens config.chunkMaxTokens
    · rw [if_pos ht] at hc
      simp only [List.mem_singleton] at hc
      subst hc
      left
      simpa using ht
    · rw [if_neg ht] at hc
      obtain ⟨t, hst, htn, rfl⟩ :=
        chunkLoop_mem tok (splitLines content)
          (clampMaxTokens config.chunkMaxTokens)
          (clampOverlapTokens config.chunkOverlapTokens
            (clampMaxTokens config.chunkMaxTokens)) 0 c hc
      rcases chunkEnd_budget tok (splitLines content)
          (clampMaxTokens config.chunkMaxTokens) t htn with h1 | h2
      · right
        rw [mkChunk_lineStart, mkChunk_lineEnd, h1]
      · left
        rw [mkChunk_tokenEnd, mkChunk_tokenStart]
        exact h2

unseal growEnd findOverlapStart chunkLoop in
/-- Witness for C2 at a concrete chunk of the counterexample input. -/
theorem C2_chunk_budget_witness :
    ({ content := "b", lineStart := 2, lineEnd := 2, tokenStart := 1,
       tokenEnd := 256 : TokenChunk }).tokenEnd -
        ({ content := "b", lineStart := 2, lineEnd := 2, tokenStart := 1,
           tokenEnd := 256 : TokenChunk }).tokenStart ≤
        clampMaxTokens cfgC1.chunkMaxTokens ∨
      ({ content := "b", lineStart := 2, lineEnd := 2, tokenStart := 1,
         tokenEnd := 256 : TokenChunk }).lineStart =
        ({ content := "b", lineStart := 2, lineEnd := 2, tokenStart := 1,
           tokenEnd := 256 : TokenChunk }).lineEnd :=
  C2_chunk_budget tokC1 contentC1 cfgC1 _ (by decide)

/-- C3: when the whole document fits the clamped budget, the chunker returns
exactly one chunk spanning line 1 to the last line with the full token span. -/
theorem C3_single_chunk (tok : String → Nat) (content : String)
    (config : IndexingConfig)
    (htot : ((splitLines content).map tok).sum ≤
      clampMaxTokens config.chunkMaxTokens) :
    splitIntoTokenChunks tok content config =
      [{ content := content
         lineStart := 1
         lineEnd := (splitLines content).length
         tokenStart := 0
         tokenEnd := ((splitLines content).map tok).sum }] := by
  have hpos := splitLines_length_pos content
  unfold splitIntoTokenChunks
  dsimp only
  rw [if_neg (by omega), if_pos htot]

/-- Witness for C3 on a three-line document. -/
theorem C3_single_chunk_witness :
    splitIntoTokenChunks (fun s => s.length) "line1\nline2\nline3"
        DEFAULT_INDEXING_CONFIG =
      [{ content := "line1\nline2\nline3", lineStart := 1, lineEnd := 3,
         tokenStart := 0, tokenEnd := 15 }] := by
  have h := C3_single_chunk (fun s => s.length) "line1\nline2\nline3"
    DEFAULT_INDEXING_CONFIG (by decide)
  rw [h]
  decide

/-- C4: on the empty string the chunker does NOT return the empty sequence:
JavaScript `''.split('\n')` is `['']`, so the `lines.length === 0` guard is
unreachable and the empty document (0 tokens, since the tokenizer encodes
the empty line to no tokens) falls into the single-chunk branch, producing
one empty chunk spanning line 1..1 with token span 0..0. -/
theorem C4_empty_content_eval (tok : String → Nat) (config : IndexingConfig)
    (h0 : tok "" = 0) :
    splitIntoTokenChunks tok "" config =
      [{ content := "", lineStart := 1, lineEnd := 1,
         tokenStart := 0, tokenEnd := 0 }] := by
  have hl : splitLines "" = [""] := rfl
  unfold splitIntoTokenChunks
  rw [hl]
  simp [h0]

/-- Witness for C4 with an explicit tokenizer. -/
theorem C4_empty_content_eval_witness :
    splitIntoTokenChunks (fun s => s.length) "" DEFAULT_INDEXING_CONFIG =
      [{ content := "", lineStart := 1, lineEnd := 1,
         tokenStart := 0, tokenEnd := 0 }] :=
  C4_empty_content_eval (fun s => s.length) DEFAULT_INDEXING_CONFIG (by decide)

/-- C8 (counterexample): the recognized default for `chunkOverlapTokens` in
`DEFAULT_INDEXING_CONFIG` is 128, not 256 as claimed. -/
theorem C8_counterexample :
    DEFAULT_INDEXING_CONFIG.chunkOverlapTokens = 128 ∧
      ¬ DEFAULT_INDEXING_CONFIG.chunkOverlapTokens = 256 := by
  constructor
  · rfl
  · decide

/-- C8 (amended): default `chunkMaxTokens` is 1024 and default
`chunkOverlapTokens` is 128; the chunker clamps `chunkMaxTokens` to
[256, 2048] (identity inside the range) and `chunkOverlapTokens` to
[0, maxTokens - 1] (identity for in-range non-negative values). -/
theorem C8_defaults_clamps_amended :
    DEFAULT_INDEXING_CONFIG.chunkMaxTokens = 1024 ∧
    DEFAULT_INDEXING_CONFIG.chunkOverlapTokens = 128 ∧
    (∀ raw : Int, 256 ≤ clampMaxTokens raw ∧ clampMaxTokens raw ≤ 2048 ∧
      (256 ≤ raw → raw ≤ 2048 → (clampMaxTokens raw : Int) = raw)) ∧
    (∀ (raw : Int) (maxTokens : Nat), 256 ≤ maxTokens →
      clampOverlapTokens raw maxTokens ≤ maxTokens - 1 ∧
        (0 ≤ raw → raw ≤ (maxTokens : Int) - 1 →
          (clampOverlapTokens raw maxTokens : Int) = raw)) := by
  refine ⟨rfl, rfl, ?_, ?_⟩
  · intro raw
    unfold clampMaxTokens
    refine ⟨?_, ?_, ?_⟩ <;> omega
  · intro raw maxTokens hm
    unfold clampOverlapTokens
    refine ⟨?_, ?_⟩ <;> omega

/-- Witness for C8 (amended) at in-range values 300 and 100. -/
theorem C8_defaults_clamps_amended_witness :
    (clampMaxTokens 300 : Int) = 300 ∧ (clampOverlapTokens 100 300 : Int) = 100 :=
  ⟨(C8_defaults_clamps_amended.2.2.1 300).2.2 (by decide) (by decide),
   (C8_defaults_clamps_amended.2.2.2 100 300 (by decide)).2 (by decide) (by decide)⟩

/-- C10: the chunker's main loop makes progress on every input: whenever the
current window does not reach the last line the next start line is strictly
greater than the current one (so the remaining-line measure decreases), and
when it does reach the last line the loop emits the final chunk and stops. -/
theorem C10_termination (tok : String → Nat) (lines : List String)
    (maxT overlap s : Nat) (hs : s < lines.length) :
    s < nextStart tok lines maxT overlap s ∧
    lines.length - nextStart tok lines maxT overlap s < lines.length - s ∧
    (lines.length ≤ chunkEnd tok lines maxT s →
      chunkLoop tok lines maxT overlap s = [mkChunk tok lines maxT s]) := by
  have h := nextStart_gt tok lines maxT overlap s hs
  refine ⟨h, by omega, fun hend => ?_⟩
  rw [chunkLoop_cons tok lines maxT overlap s hs]
  simp [hend]

unseal growEnd findOverlapStart chunkLoop in
/-- Witness for C10 on the counterexample input at start line 0. -/
theorem C10_termination_witness :
    0 < nextStart tokC1 (splitLines contentC1) 256 1 0 ∧
    (splitLines contentC1).length - nextStart tokC1 (splitLines contentC1) 256 1 0 <
      (splitLines contentC1).length - 0 ∧
    ((splitLines contentC1).length ≤ chunkEnd tokC1 (splitLines contentC1) 256 0 →
      chunkLoop tokC1 (splitLines contentC1) 256 1 0 =
        [mkChunk tokC1 (splitLines contentC1) 256 0]) :=
  C10_termination tokC1 (splitLines contentC1) 256 1 0 (by decide)

/-! ## Lemmas about the metadata store operations -/

theorem upsertFileRow_find_update (rows : List FileRow) (row : FileRow)
    (h : rows.any (fun f => f.fileId = row.fileId) = true) :
    ∃ r, (rows.map fun f =>
        if f.fileId = row.fileId then applyFileUpdate f row else f).find?
          (fun f => f.fileId = row.fileId) = some r ∧
      r.md5Hash = row.md5Hash := by
  induction rows with
  | nil => simp at h
  | cons a rows ih =>
    by_cases ha : a.fileId = row.fileId
    · refine ⟨applyFileUpdate a row, ?_, rfl⟩
      simp only [List.map_cons, if_pos ha]
      rw [List.find?_cons_of_pos]
      simp [applyFileUpdate, ha]
    · simp only [List.any_cons, Bool.or_eq_true, decide_eq_true_eq] at h
      rcases h with h | h
      · exact absurd h ha
      · obtain ⟨r, hr, hmd⟩ := ih h
        refine ⟨r, ?_, hmd⟩
        simp only [List.map_cons, if_neg ha]
        rw [List.find?_cons_of_neg]
        · exact hr
        · simp [ha]

theorem upsertFileRow_find_new (rows : List FileRow) (row : FileRow)
    (h : rows.any (fun f => f.fileId = row.fileId) = false) :
    (rows ++ [row]).find? (fun f => f.fileId = row.fileId) = some row := by
  induction rows with
  | nil =>
    simp only [List.nil_append]
    rw [List.find?_cons_of_pos]
    simp
  | cons a rows ih =>
    simp only [List.any_cons, Bool.or_eq_false_iff, decide_eq_false_iff_not] at h
    simp only [List.cons_append]
    rw [List.find?_cons_of_neg]
    · refine ih ?_
      simp only [List.any_eq_false, decide_eq_true_eq]
      intro x hx
      have := (List.any_eq_false.mp h.2) x hx
      simpa using this
    · simpa using h.1

theorem upsertFileRow_find (rows : List FileRow) (row : FileRow) :
    ∃ r, (upsertFileRow rows row).find? (fun f => f.fileId = row.fileId) = some r ∧
      r.md5Hash = row.md5Hash := by
  unfold upsertFileRow
  by_cases h : rows.any (fun f => f.fileId = row.fileId)
  · rw [if_pos h]
    exact upsertFileRow_find_update rows row h
  · rw [if_neg h]
    refine ⟨row, ?_, rfl⟩
    exact upsertFileRow_find_new rows row (by simpa using h)

theorem getIndexedFile_upsert (env : Env) (s : DbState) (file : IndexedFile) :
    ∃ r, getIndexedFile (upsertIndexedFile env s file) file.fileId = some r ∧
      r.md5Hash = file.md5Hash := by
  unfold getIndexedFile upsertIndexedFile
  dsimp only
  exact upsertFileRow_find s.files
    { fileId := file.fileId, workspaceId := _, folderId := _, filePath := _,
      fileName := _, absolutePath := _, fileSize := _, lastIndexedAt := _,
      md5Hash := file.md5Hash }

theorem indexFileWrite_getIndexedFile (env : Env) (s : DbState)
    (workspacePath filePath fileId md5Hash content : String) :
    ∃ r, getIndexedFile
        (indexFileWrite env s workspacePath filePath fileId md5Hash content)
        fileId = some r ∧
      r.md5Hash = md5Hash := by
  unfold indexFileWrite
  dsimp only
  exact getIndexedFile_upsert env _
    { fileId := fileId, workspaceId := _, folderId := "", filePath := filePath,
      fileName := _, absolutePath := filePath, fileSize := none,
      lastIndexedAt := env.now, md5Hash := md5Hash, workspacePath := _ }

theorem indexFile_getIndexedFile (env : Env) (s : DbState)
    (workspacePath fsPath content : String) :
    ∃ r, getIndexedFile (indexFile env s workspacePath fsPath content)
        (env.generateFileId workspacePath (normalizePath fsPath)) = some r ∧
      r.md5Hash = env.calculateMD5 content := by
  unfold indexFile
  dsimp only
  cases hf : getIndexedFile s (env.generateFileId workspacePath (normalizePath fsPath)) with
  | none =>
    exact indexFileWrite_getIndexedFile env s workspacePath
      (normalizePath fsPath) (env.generateFileId workspacePath (normalizePath fsPath))
      (env.calculateMD5 content) content
  | some f =>
    dsimp only
    by_cases hm : f.md5Hash = env.calculateMD5 content
    · rw [if_pos hm]
      exact ⟨f, hf, hm⟩
    · rw [if_neg hm]
      exact indexFileWrite_getIndexedFile env _ workspacePath
        (normalizePath fsPath) (env.generateFileId workspacePath (normalizePath fsPath))
        (env.calculateMD5 content) content

/-! ## Claim theorems: the indexing service and the vector store -/

/-- C5: when the stored `IndexedFile` row for the file exists and its stored
hash equals the hash of the current content, `indexFile` returns the state
unchanged (no chunk delete, no chunk/vector insert, no metadata write);
consequently a second `indexFile` call on unchanged content is a no-op. -/
theorem C5_indexFile_idempotent (env : Env) (s : DbState)
    (workspacePath fsPath content : String) :
    (∀ f, getIndexedFile s
          (env.generateFileId workspacePath (normalizePath fsPath)) = some f →
        f.md5Hash = env.calculateMD5 content →
        indexFile env s workspacePath fsPath content = s) ∧
      indexFile env (indexFile env s workspacePath fsPath content)
          workspacePath fsPath content =
        indexFile env s workspacePath fsPath content := by
  constructor
  · intro f hf hmd
    unfold indexFile
    dsimp only
    rw [hf]
    simp [hmd]
  · obtain ⟨r, hr, hmd⟩ := indexFile_getIndexedFile env s workspacePath fsPath content
    set t := indexFile env s workspacePath fsPath content with ht
    rw [indexFile]
    rw [hr]
    simp [hmd]

/-- Witness for C5: re-indexing unchanged content against a store whose row
carries the matching hash leaves the state untouched. -/
theorem C5_indexFile_idempotent_witness :
    indexFile envW dbC5 "w" "f" "c" = dbC5 :=
  (C5_indexFile_idempotent envW dbC5 "w" "f" "c").1 rowC5 (by decide) (by decide)

/-- C6: `deleteWorkspaceIndex` is a no-op when no workspace record exists for
the path; otherwise it removes every chunk row with that workspace path and
every indexed-file and folder row with that workspace id (chunks first,
then files, then folders, as the composition in the definition shows), and
keeps every row that does not belong to the workspace, leaving the
workspace table itself unchanged. -/
theorem C6_deleteWorkspaceIndex (s : DbState) (workspacePath : String) :
    (getWorkspaceByPath s workspacePath = none →
      deleteWorkspaceIndex s workspacePath = s) ∧
    ∀ w, getWorkspaceByPath s workspacePath = some w →
      (deleteWorkspaceIndex s workspacePath).workspaces = s.workspaces ∧
      (∀ c ∈ (deleteWorkspaceIndex s workspacePath).chunks,
        ¬ c.workspacePath = workspacePath) ∧
      (∀ f ∈ (deleteWorkspaceIndex s workspacePath).files,
        ¬ f.workspaceId = w.workspaceId) ∧
      (∀ f ∈ (deleteWorkspaceIndex s workspacePath).folders,
        ¬ f.workspaceId = w.workspaceId) ∧
      (∀ c ∈ s.chunks, ¬ c.workspacePath = workspacePath →
        c ∈ (deleteWorkspaceIndex s workspacePath).chunks) ∧
      (∀ f ∈ s.files, ¬ f.workspaceId = w.workspaceId →
        f ∈ (deleteWorkspaceIndex s workspacePath).files) ∧
      (∀ f ∈ s.folders, ¬ f.workspaceId = w.workspaceId →
        f ∈ (deleteWorkspaceIndex s workspacePath).folders) := by
  constructor
  · intro h
    unfold deleteWorkspaceIndex
    rw [h]
  · intro w hw
    unfold deleteWorkspaceIndex
    rw [hw]
    dsimp only
    unfold deleteFoldersForWorkspace deleteFilesForWorkspace deleteChunksForWorkspace
    dsimp only
    refine ⟨rfl, ?_, ?_, ?_, ?_, ?_, ?_⟩ <;>
      simp only [List.mem_filter, decide_eq_true_eq, decide_not, Bool.not_eq_true,
        decide_eq_false_iff_not, Bool.not_eq_true', Bool.not_eq_false] <;>
      intro x hx <;>
      simp_all

/-- Witness for C6: the chunk row of workspace "B" survives deleting
workspace "A". -/
theorem C6_deleteWorkspaceIndex_witness :
    chunkB ∈ (deleteWorkspaceIndex dbC6 "A").chunks :=
  (((((C6_deleteWorkspaceIndex dbC6 "A").2 wsA (by decide)).2.2.2.2).1)
    chunkB (by decide) (by decide))

/-- C7: while an indexing run is active (`isIndexing = true`), both
`indexWorkspace` and `indexFiles` fail immediately with the
"already indexing" error, for every workspace path and file list (so no
file is enumerated or processed and nothing is queued); both entry points
test the same shared status flag. -/
theorem C7_already_indexing_guard (env : Env) (status : IndexingStatus)
    (s : DbState) (workspacePath : String) (files : List (String × String))
    (h : status.isIndexing = true) :
    indexWorkspace env status s workspacePath files =
        Except.error "Indexing already in progress" ∧
      indexFiles env status s workspacePath files =
        Except.error "Indexing already in progress" := by
  unfold indexWorkspace indexFiles
  rw [h]
  exact ⟨rfl, rfl⟩

/-- Witness for C7 with a busy status over a non-empty file list. -/
theorem C7_already_indexing_guard_witness :
    indexWorkspace envW stBusy emptyDb "w" [("f", "c")] =
        Except.error "Indexing already in progress" ∧
      indexFiles envW stBusy emptyDb "w" [("f", "c")] =
        Except.error "Indexing already in progress" :=
  C7_already_indexing_guard envW stBusy emptyDb "w" [("f", "c")] rfl

/-- C9: provided the query embedding succeeds, `search` on a state with no
chunk rows returns the empty result list (not an error), and every returned
result of any search carries `score = 1 - cosineDistance(chunk embedding,
query embedding)` together with the fields of its chunk row. -/
theorem C9_search_empty_and_scores (env : Env) (s : DbState) (query : String)
    (workspacePath : Option String) (limit : Nat) (qe : List Rat)
    (hq : env.embedQuery query = Except.ok qe) :
    (s.chunks = [] → search env s query workspacePath limit = Except.ok []) ∧
    ∀ results, search env s query workspacePath limit = Except.ok results →
      ∀ r ∈ results, ∃ c, c ∈ s.chunks ∧
        r.score = 1 - env.cosineDistance c.embedding qe ∧
        r.filePath = c.filePath ∧ r.lineStart = c.lineStart ∧
        r.lineEnd = c.lineEnd ∧ r.content = c.content := by
  constructor
  · intro h
    unfold search
    rw [hq]
    dsimp only
    rw [h]
    cases workspacePath <;> simp [List.mergeSort_nil]
  · intro results hres r hr
    unfold search at hres
    rw [hq] at hres
    dsimp only at hres
    have hsub : ∀ c : ChunkRow,
        c ∈ (match workspacePath with
          | some wp => s.chunks.filter fun x : ChunkRow => x.workspacePath = wp
          | none => s.chunks) → c ∈ s.chunks := by
      cases workspacePath with
      | none => intro c hc; exact hc
      | some wp =>
        intro c hc
        dsimp only at hc
        exact List.filter_subset' s.chunks hc
    injection hres with hM
    subst hM
    obtain ⟨p, hp, rfl⟩ := List.mem_map.mp hr
    have hp2 := List.take_subset _ _ hp
    have hp3 := (List.mergeSort_perm _
      (fun a b : ChunkRow × Rat => decide (a.2 ≤ b.2))).mem_iff.mp hp2
    obtain ⟨c, hc, rfl⟩ := List.mem_map.mp hp3
    exact ⟨c, hsub c hc, rfl, rfl, rfl, rfl, rfl⟩

/-- Witness for C9: a search against the empty index returns the empty
result list. -/
theorem C9_search_empty_and_scores_witness :
    search envW emptyDb "foo" none 10 = Except.ok [] :=
  (C9_search_empty_and_scores envW emptyDb "foo" none 10 [1] rfl).1 rfl
